import Mathlib

/-!
Verification of the precompile-merging EVM wrapper from
`x/evm/vm/geth/geth.go` (package `geth`).

The wrapper embeds the go-ethereum EVM and merges the default (built-in)
precompiled contracts with caller-supplied extension contracts:

  rules := chainConfig.Rules(blockCtx.BlockNumber, blockCtx.Random != nil)
  precompiles := vm.DefaultPrecompiles(rules)
  activePrecompiles := vm.DefaultActivePrecompiles(rules)
  customPrecompiles := getPrecompilesExtended(ctx, newEvm.EVM)
  for k, v := range customPrecompiles {
      precompiles[k] = v
      activePrecompiles = append(activePrecompiles, v.Address())
  }
  sort.SliceStable(activePrecompiles, func(i, j int) bool {
      return bytes.Compare(activePrecompiles[i].Bytes(), activePrecompiles[j].Bytes()) < 0
  })

The embedding below models addresses as byte lists, Go maps as association
lists whose list order stands for the (arbitrary) map iteration order, and
the external go-ethereum collaborators (`vm.NewEVM`, `vm.DefaultPrecompiles`,
`vm.DefaultActivePrecompiles`, `params.ChainConfig.Rules`) as abstract
function-valued parameters, exactly as the wrapper consumes them.
-/

namespace Geth

/-- An address, as the sequence of its bytes (`common.Address.Bytes()`).
Real addresses have 20 bytes; nothing in the wrapper depends on the length. -/
abbrev Addr := List Nat

/-- Model of Go `bytes.Compare` on byte slices: lexicographic comparison,
a strict prefix ordering below the longer slice. -/
def bytesCompare : List Nat → List Nat → Ordering
  | [], [] => Ordering.eq
  | [], _ :: _ => Ordering.lt
  | _ :: _, [] => Ordering.gt
  | a :: as, b :: bs =>
    if a < b then Ordering.lt
    else if b < a then Ordering.gt
    else bytesCompare as bs

theorem bytesCompare_self : ∀ a : List Nat, bytesCompare a a = Ordering.eq := by
  intro a
  induction a with
  | nil => rfl
  | cons x xs ih => simp [bytesCompare, Nat.lt_irrefl, ih]

theorem bytesCompare_eq : ∀ {a b : List Nat}, bytesCompare a b = Ordering.eq → a = b := by
  intro a
  induction a with
  | nil => intro b h; cases b with
    | nil => rfl
    | cons y ys => cases h
  | cons x xs ih =>
    intro b h
    cases b with
    | nil => cases h
    | cons y ys =>
      by_cases h1 : x < y
      · rw [bytesCompare, if_pos h1] at h; cases h
      · by_cases h2 : y < x
        · rw [bytesCompare, if_neg h1, if_pos h2] at h; cases h
        · have hxy : x = y := by omega
          rw [bytesCompare, if_neg h1, if_neg h2] at h
          rw [hxy, ih h]

theorem bytesCompare_eq_iff {a b : List Nat} :
    bytesCompare a b = Ordering.eq ↔ a = b := by
  constructor
  · exact bytesCompare_eq
  · intro h; rw [h]; exact bytesCompare_self b

theorem bytesCompare_swap : ∀ a b : List Nat,
    bytesCompare b a = (bytesCompare a b).swap := by
  intro a
  induction a with
  | nil => intro b; cases b <;> rfl
  | cons x xs ih =>
    intro b
    cases b with
    | nil => rfl
    | cons y ys =>
      simp only [bytesCompare]
      by_cases h1 : x < y
      · have h2 : ¬ y < x := by omega
        rw [if_neg h2, if_pos h1, if_pos h1]; rfl
      · by_cases h2 : y < x
        · rw [if_pos h2, if_neg h1, if_pos h2]; rfl
        · rw [if_neg h2, if_neg h1, if_neg h1, if_neg h2, ih ys]

theorem bytesCompare_lt_trans : ∀ {a b c : List Nat},
    bytesCompare a b = Ordering.lt → bytesCompare b c = Ordering.lt →
    bytesCompare a c = Ordering.lt := by
  intro a
  induction a with
  | nil =>
    intro b c h1 h2
    cases c with
    | nil =>
      cases b with
      | nil => cases h1
      | cons y ys => cases h2
    | cons z zs => rfl
  | cons x xs ih =>
    intro b c h1 h2
    cases b with
    | nil => cases h1
    | cons y ys =>
      cases c with
      | nil => cases h2
      | cons z zs =>
        by_cases hxy : x < y
        · by_cases hyz : y < z
          · rw [bytesCompare, if_pos (by omega : x < z)]
          · by_cases hzy : z < y
            · rw [bytesCompare, if_neg hyz, if_pos hzy] at h2; cases h2
            · have : y = z := by omega
              rw [bytesCompare, if_pos (by omega : x < z)]
        · by_cases hyx : y < x
          · rw [bytesCompare, if_neg hxy, if_pos hyx] at h1; cases h1
          · have hxy' : x = y := by omega
            rw [bytesCompare, if_neg hxy, if_neg hyx] at h1
            by_cases hyz : y < z
            · rw [bytesCompare, if_pos (by omega : x < z)]
            · by_cases hzy : z < y
              · rw [bytesCompare, if_neg hyz, if_pos hzy] at h2; cases h2
              · have hyz' : y = z := by omega
                rw [bytesCompare, if_neg hyz, if_neg hzy] at h2
                rw [bytesCompare, if_neg (by omega : ¬ x < z),
                  if_neg (by omega : ¬ z < x)]
                exact ih h1 h2

/-- The strict order used by the source's sort comparator:
`bytes.Compare(a, b) < 0`. -/
def addrLt (a b : Addr) : Prop := bytesCompare a b = Ordering.lt

/-- The non-strict order induced by the comparator: `!(b < a)`.  A stable
sort by the strict comparator produces a list non-decreasing in this order. -/
def addrLe (a b : Addr) : Prop := ¬ bytesCompare b a = Ordering.lt

instance : DecidableRel addrLt := fun a b =>
  inferInstanceAs (Decidable (bytesCompare a b = Ordering.lt))

instance : DecidableRel addrLe := fun a b =>
  inferInstanceAs (Decidable (¬ bytesCompare b a = Ordering.lt))

instance : IsTotal Addr addrLe := by
  constructor
  intro a b
  by_cases h : bytesCompare b a = Ordering.lt
  · right
    intro hab
    rw [bytesCompare_swap a b, hab] at h
    cases h
  · left; exact h

theorem bytesCompare_gt_iff {a b : List Nat} :
    bytesCompare a b = Ordering.gt ↔ bytesCompare b a = Ordering.lt := by
  rw [bytesCompare_swap a b]
  rcases h : bytesCompare a b with _ | _ | _ <;> decide

theorem addrLe_iff {a b : Addr} :
    addrLe a b ↔ a = b ∨ bytesCompare a b = Ordering.lt := by
  constructor
  · intro hle
    rcases h : bytesCompare a b with _ | _ | _
    · exact Or.inr rfl
    · exact Or.inl (bytesCompare_eq h)
    · exact absurd (bytesCompare_gt_iff.mp h) hle
  · rintro (rfl | hlt)
    · intro hba
      rw [bytesCompare_self] at hba
      exact absurd hba (by decide)
    · intro hba
      rw [← bytesCompare_gt_iff] at hba
      rw [hlt] at hba
      exact absurd hba (by decide)

instance : IsTrans Addr addrLe := by
  constructor
  intro a b c hab hbc
  rcases addrLe_iff.mp hab with rfl | h1
  · exact hbc
  · rcases addrLe_iff.mp hbc with rfl | h2
    · exact hab
    · exact addrLe_iff.mpr (Or.inr (bytesCompare_lt_trans h1 h2))

instance : IsAntisymm Addr addrLe := by
  constructor
  intro a b hab hba
  rcases addrLe_iff.mp hab with rfl | h1
  · rfl
  · rcases addrLe_iff.mp hba with rfl | h2
    · rfl
    · rw [← bytesCompare_gt_iff] at h2
      rw [h1] at h2; cases h2

theorem addrLt_of_addrLe_of_ne {a b : Addr} (hle : addrLe a b) (hne : a ≠ b) :
    addrLt a b := by
  rcases addrLe_iff.mp hle with rfl | h1
  · exact absurd rfl hne
  · exact h1

/-! ### Data model

The Go types consumed or produced by the wrapper.  `params.Rules`,
`params.ChainConfig.Rules`, `vm.BlockContext`, `vm.TxContext`, `vm.Config`,
`vm.StateDB`, `vm.NewEVM`, `vm.DefaultPrecompiles` and
`vm.DefaultActivePrecompiles` all live in external collaborator packages
(go-ethereum / its fork); the wrapper only consumes them, so they are
modelled as record fields and abstract function-valued parameters. -/

/-- Mirror of `params.Rules`: the resolved protocol feature activations. -/
structure Rules where
  ChainID : Int
  IsHomestead : Bool
  IsEIP150 : Bool
  IsEIP155 : Bool
  IsEIP158 : Bool
  IsByzantium : Bool
  IsConstantinople : Bool
  IsPetersburg : Bool
  IsIstanbul : Bool
  IsBerlin : Bool
  IsLondon : Bool
  IsMerge : Bool
deriving DecidableEq, Repr

/-- Mirror of `params.ChainConfig`, reduced to the one capability the wrapper
uses: the external `Rules(num *big.Int, isMerge bool) params.Rules` method,
modelled as an abstract function of the block number and the
randomness-presence flag. -/
structure ChainConfig where
  Rules : Int → Bool → Rules

/-- Mirror of `vm.PrecompiledContract` (with the fork's `Address()` method):
a native contract bound to a fixed self-reported address.  `runTag` stands
opaquely for the `RequiredGas`/`Run` implementation, so that distinct
implementations (built-in versus extension) are distinguishable values. -/
structure PrecompiledContract where
  Address : Addr
  runTag : Nat
deriving DecidableEq, Repr

/-- Mirror of `evm.PrecompiledContracts = map[common.Address]vm.PrecompiledContract`.
A Go map is modelled as an association list: the list order stands for the
map's (arbitrary) iteration order, and well-formed map values have `Nodup`
keys. -/
abbrev PrecompiledContracts := List (Addr × PrecompiledContract)

/-- Go map indexing `m[k]` (first, and for `Nodup` keys the only, binding). -/
def mapLookup (m : PrecompiledContracts) (k : Addr) : Option PrecompiledContract :=
  match m with
  | [] => none
  | (k', v') :: rest => if k' = k then some v' else mapLookup rest k

/-- Go map assignment `m[k] = v`: replaces the binding of `k` if present,
otherwise adds one. -/
def mapInsert (m : PrecompiledContracts) (k : Addr) (v : PrecompiledContract) :
    PrecompiledContracts :=
  match m with
  | [] => [(k, v)]
  | (k', v') :: rest => if k' = k then (k, v) :: rest else (k', v') :: mapInsert rest k v

/-- Mirror of `vm.BlockContext` (value fields; the function-valued fields
`CanTransfer`/`Transfer`/`GetHash` play no role in the wrapper). -/
structure BlockContext where
  Coinbase : Addr
  GasLimit : Nat
  BlockNumber : Int
  Time : Nat
  Difficulty : Int
  BaseFee : Int
  Random : Option (List Nat)
deriving DecidableEq, Repr

/-- Mirror of `vm.TxContext`. -/
structure TxContext where
  Origin : Addr
  GasPrice : Int
deriving DecidableEq, Repr

/-- Mirror of `vm.Config` (the tracer hook is opaquely tagged). -/
structure Config where
  Debug : Bool
  TracerTag : Nat
  NoBaseFee : Bool
  EnablePreimageRecording : Bool
  ExtraEips : List Int
deriving DecidableEq, Repr

/-- Opaque handle for the external `vm.StateDB` collaborator. -/
structure StateDB where
  handle : Nat
deriving DecidableEq, Repr

/-- Opaque handle for `sdk.Context`. -/
structure SdkContext where
  handle : Nat
deriving DecidableEq, Repr

/-- Mirror of the embedded go-ethereum `vm.EVM` value, restricted to the
fields the wrapper reads (`Context`, `TxContext`, `Config`) plus the
construction inputs it stores. -/
structure VmEVM where
  Context : BlockContext
  TxContext : TxContext
  StateDB : StateDB
  chainConfig : ChainConfig
  Config : Config

/-- Model of the external constructor `vm.NewEVM(blockCtx, txCtx, stateDB,
chainConfig, config)`: packs the execution context into the base VM value. -/
def vmNewEVM (blockCtx : BlockContext) (txCtx : TxContext) (stateDB : StateDB)
    (chainConfig : ChainConfig) (config : Config) : VmEVM :=
  { Context := blockCtx, TxContext := txCtx, StateDB := stateDB,
    chainConfig := chainConfig, Config := config }

/-- The two external `vm`-package functions the wrapper consumes to derive
the built-in precompile set from Chain Rules.  They are abstract data here:
quantifying over `BaseVM` quantifies over every possible built-in table and
active list per rules value. -/
structure BaseVM where
  DefaultPrecompiles : Rules → PrecompiledContracts
  DefaultActivePrecompiles : Rules → List Addr

/-- Mirror of the wrapper struct `geth.EVM`: the embedded `*vm.EVM` (the Go
promoted field `e.EVM`, named `innerEVM` here because Lean does not allow a
field to shadow its structure's name) plus the merged precompile table and
the sorted active address list built at construction. -/
structure EVM where
  innerEVM : VmEVM
  precompiles : PrecompiledContracts
  activePrecompiles : List Addr

/-- One iteration of the merge loop body
`precompiles[k] = v; activePrecompiles = append(activePrecompiles, v.Address())`. -/
def mergeStep (acc : PrecompiledContracts × List Addr)
    (kv : Addr × PrecompiledContract) : PrecompiledContracts × List Addr :=
  (mapInsert acc.1 kv.1 kv.2, acc.2 ++ [kv.2.Address])

/-- Mirror of `geth.NewEVM`.  `base` carries the two external `vm`-package
functions; the remaining parameters follow the Go signature.  The final
`sort.SliceStable(activePrecompiles, less)` is modelled by the stable
insertion sort over the non-strict order induced by the comparator
`bytes.Compare(·,·) < 0`; since that order is antisymmetric on addresses,
every sort producing a non-decreasing permutation yields this same list. -/
def NewEVM (base : BaseVM) (ctx : SdkContext) (blockCtx : BlockContext)
    (txCtx : TxContext) (stateDB : StateDB) (chainConfig : ChainConfig)
    (config : Config)
    (getPrecompilesExtended : SdkContext → VmEVM → PrecompiledContracts) : EVM :=
  let innerEVM := vmNewEVM blockCtx txCtx stateDB chainConfig config
  let rules := chainConfig.Rules blockCtx.BlockNumber blockCtx.Random.isSome
  let precompiles := base.DefaultPrecompiles rules
  let activePrecompiles := base.DefaultActivePrecompiles rules
  let customPrecompiles := getPrecompilesExtended ctx innerEVM
  let merged := customPrecompiles.foldl mergeStep (precompiles, activePrecompiles)
  { innerEVM := innerEVM,
    precompiles := merged.1,
    activePrecompiles := List.insertionSort addrLe merged.2 }

/-- Mirror of `geth.EVM.Context` (`return e.EVM.Context`). -/
def EVM.Context (e : EVM) : BlockContext := e.innerEVM.Context

/-- Mirror of `geth.EVM.TxContext` (`return e.EVM.TxContext`). -/
def EVM.TxContext (e : EVM) : Geth.TxContext := e.innerEVM.TxContext

/-- Mirror of `geth.EVM.Config` (`return e.EVM.Config`). -/
def EVM.Config (e : EVM) : Geth.Config := e.innerEVM.Config

/-- Mirror of `geth.EVM.Precompile`: the Go method returns the pair
`(p vm.PrecompiledContract, found bool)` where `p` is nil exactly when
`found` is false; the pair is modelled as an `Option`.  The method has no
error result: the lookup is total and signals a miss only through `found`. -/
def EVM.Precompile (e : EVM) (addr : Addr) : Option PrecompiledContract :=
  mapLookup e.precompiles addr

/-- Mirror of `geth.EVM.ActivePrecompiles`: the `rules` parameter is the
anonymous `_ params.Rules` of the Go method. -/
def EVM.ActivePrecompiles (e : EVM) (_ : Rules) : List Addr :=
  e.activePrecompiles

/-! ### Lemmas about map assignment, lookup and the merge loop -/

theorem mapLookup_insert_self (m : PrecompiledContracts) (k : Addr)
    (v : PrecompiledContract) : mapLookup (mapInsert m k v) k = some v := by
  induction m with
  | nil => simp [mapInsert, mapLookup]
  | cons kv rest ih =>
    obtain ⟨k', v'⟩ := kv
    by_cases h : k' = k
    · simp [mapInsert, h, mapLookup]
    · simp [mapInsert, h, mapLookup, ih]

theorem mapLookup_insert_ne (m : PrecompiledContracts) {k k0 : Addr}
    (v : PrecompiledContract) (h : k0 ≠ k) :
    mapLookup (mapInsert m k v) k0 = mapLookup m k0 := by
  induction m with
  | nil => simp [mapInsert, mapLookup, Ne.symm h]
  | cons kv rest ih =>
    obtain ⟨k', v'⟩ := kv
    by_cases h' : k' = k
    · subst h'
      simp [mapInsert, mapLookup, Ne.symm h]
    · simp [mapInsert, h', mapLookup, ih]

theorem mem_of_mapLookup {m : PrecompiledContracts} {k : Addr}
    {v : PrecompiledContract} (h : mapLookup m k = some v) : (k, v) ∈ m := by
  induction m with
  | nil => cases h
  | cons kv rest ih =>
    obtain ⟨k', v'⟩ := kv
    by_cases h' : k' = k
    · subst h'
      rw [mapLookup, if_pos rfl] at h
      injection h with h
      subst h
      exact List.mem_cons_self _ _
    · rw [mapLookup, if_neg h'] at h
      exact List.mem_cons_of_mem _ (ih h)

theorem mapLookup_of_mem {m : PrecompiledContracts} {k : Addr}
    {v : PrecompiledContract} (hnd : (m.map Prod.fst).Nodup)
    (hm : (k, v) ∈ m) : mapLookup m k = some v := by
  induction m with
  | nil => cases hm
  | cons kv rest ih =>
    obtain ⟨k', v'⟩ := kv
    rw [List.map_cons, List.nodup_cons] at hnd
    rcases List.mem_cons.mp hm with h | h
    · injection h with h1 h2
      subst h1; subst h2
      rw [mapLookup, if_pos rfl]
    · have hne : k' ≠ k := by
        intro he
        subst he
        exact hnd.1 (List.mem_map.mpr ⟨(k', v), h, rfl⟩)
      rw [mapLookup, if_neg hne]
      exact ih hnd.2 h

theorem mapLookup_eq_none_iff {m : PrecompiledContracts} {k : Addr} :
    mapLookup m k = none ↔ k ∉ m.map Prod.fst := by
  induction m with
  | nil => simp [mapLookup]
  | cons kv rest ih =>
    obtain ⟨k', v'⟩ := kv
    by_cases h : k' = k
    · subst h
      simp [mapLookup]
    · rw [mapLookup, if_neg h, List.map_cons, ih]
      constructor
      · intro hn
        rw [List.mem_cons, not_or]
        exact ⟨Ne.symm h, hn⟩
      · intro hn
        rw [List.mem_cons, not_or] at hn
        exact hn.2

/-- The cumulative effect of the loop on the table: insert every extension
binding in iteration order. -/
def insertAll (E : PrecompiledContracts) (m : PrecompiledContracts) :
    PrecompiledContracts :=
  E.foldl (fun acc kv => mapInsert acc kv.1 kv.2) m

theorem foldl_mergeStep_fst : ∀ (E : PrecompiledContracts)
    (m : PrecompiledContracts) (as : List Addr),
    (E.foldl mergeStep (m, as)).1 = insertAll E m := by
  intro E
  induction E with
  | nil => intro m as; rfl
  | cons kv rest ih =>
    intro m as
    rw [List.foldl_cons, insertAll, List.foldl_cons]
    exact ih (mapInsert m kv.1 kv.2) (as ++ [kv.2.Address])

theorem foldl_mergeStep_snd : ∀ (E : PrecompiledContracts)
    (m : PrecompiledContracts) (as : List Addr),
    (E.foldl mergeStep (m, as)).2 = as ++ E.map (fun kv => kv.2.Address) := by
  intro E
  induction E with
  | nil => intro m as; simp
  | cons kv rest ih =>
    intro m as
    rw [List.foldl_cons]
    simp only [mergeStep]
    rw [ih (mapInsert m kv.1 kv.2) (as ++ [kv.2.Address])]
    simp

theorem insertAll_lookup_of_not_mem {E : PrecompiledContracts} {k : Addr}
    (m : PrecompiledContracts) (h : k ∉ E.map Prod.fst) :
    mapLookup (insertAll E m) k = mapLookup m k := by
  induction E generalizing m with
  | nil => rfl
  | cons kv rest ih =>
    obtain ⟨k0, v0⟩ := kv
    rw [List.map_cons, List.mem_cons, not_or] at h
    rw [insertAll, List.foldl_cons]
    rw [show List.foldl (fun acc kv => mapInsert acc kv.1 kv.2)
      (mapInsert m k0 v0) rest = insertAll rest (mapInsert m k0 v0) from rfl]
    rw [ih (mapInsert m k0 v0) h.2]
    exact mapLookup_insert_ne m v0 h.1

theorem insertAll_lookup_of_mem {E : PrecompiledContracts} {k : Addr}
    {v : PrecompiledContract} (m : PrecompiledContracts)
    (hnd : (E.map Prod.fst).Nodup) (hm : (k, v) ∈ E) :
    mapLookup (insertAll E m) k = some v := by
  induction E generalizing m with
  | nil => cases hm
  | cons kv rest ih =>
    obtain ⟨k0, v0⟩ := kv
    rw [List.map_cons, List.nodup_cons] at hnd
    rw [insertAll, List.foldl_cons]
    rw [show List.foldl (fun acc kv => mapInsert acc kv.1 kv.2)
      (mapInsert m k0 v0) rest = insertAll rest (mapInsert m k0 v0) from rfl]
    rcases List.mem_cons.mp hm with h | h
    · injection h with h1 h2
      subst h1; subst h2
      have hnotin : k ∉ rest.map Prod.fst := by
        intro hin
        exact hnd.1 hin
      rw [insertAll_lookup_of_not_mem _ hnotin]
      exact mapLookup_insert_self m k v
    · exact ih (mapInsert m k0 v0) hnd.2 h

/-- With `Nodup` keys the merged table's lookup is: the extension binding if
the key is an extension key, otherwise the built-in binding. -/
theorem insertAll_lookup_char {E : PrecompiledContracts} {k : Addr}
    (m : PrecompiledContracts) (hnd : (E.map Prod.fst).Nodup) :
    mapLookup (insertAll E m) k =
      match mapLookup E k with
      | some v => some v
      | none => mapLookup m k := by
  rcases h : mapLookup E k with _ | v
  · rw [insertAll_lookup_of_not_mem m (mapLookup_eq_none_iff.mp h)]
  · exact insertAll_lookup_of_mem m hnd (mem_of_mapLookup h)

/-- With `Nodup` keys, lookup in an association list is invariant under
permutation (Go map contents do not depend on iteration order). -/
theorem mapLookup_perm {E1 E2 : PrecompiledContracts} {k : Addr}
    (hperm : E1.Perm E2) (hnd : (E1.map Prod.fst).Nodup) :
    mapLookup E1 k = mapLookup E2 k := by
  have hnd2 : (E2.map Prod.fst).Nodup := ((hperm.map Prod.fst).nodup_iff).mp hnd
  rcases h : mapLookup E1 k with _ | v
  · rcases h2 : mapLookup E2 k with _ | v2
    · rfl
    · exact absurd (mapLookup_of_mem hnd (hperm.mem_iff.mpr (mem_of_mapLookup h2)))
        (by rw [h]; intro hx; cases hx)
  · exact (mapLookup_of_mem hnd2 (hperm.mem_iff.mp (mem_of_mapLookup h))).symm

/-- Unfolding of `NewEVM`'s merged table. -/
theorem NewEVM_precompiles (base : BaseVM) (ctx : SdkContext)
    (blockCtx : BlockContext) (txCtx : TxContext) (stateDB : StateDB)
    (chainConfig : ChainConfig) (config : Config)
    (g : SdkContext → VmEVM → PrecompiledContracts) :
    (NewEVM base ctx blockCtx txCtx stateDB chainConfig config g).precompiles =
      insertAll (g ctx (vmNewEVM blockCtx txCtx stateDB chainConfig config))
        (base.DefaultPrecompiles
          (chainConfig.Rules blockCtx.BlockNumber blockCtx.Random.isSome)) := by
  rw [NewEVM]
  exact foldl_mergeStep_fst _ _ _

/-- Unfolding of `NewEVM`'s active list: the built-in active list with every
extension contract's self-reported address appended, then stably sorted. -/
theorem NewEVM_activePrecompiles (base : BaseVM) (ctx : SdkContext)
    (blockCtx : BlockContext) (txCtx : TxContext) (stateDB : StateDB)
    (chainConfig : ChainConfig) (config : Config)
    (g : SdkContext → VmEVM → PrecompiledContracts) :
    (NewEVM base ctx blockCtx txCtx stateDB chainConfig config g).activePrecompiles =
      List.insertionSort addrLe
        (base.DefaultActivePrecompiles
            (chainConfig.Rules blockCtx.BlockNumber blockCtx.Random.isSome) ++
          (g ctx (vmNewEVM blockCtx txCtx stateDB chainConfig config)).map
            (fun kv => kv.2.Address)) := by
  rw [NewEVM]
  rw [foldl_mergeStep_snd]

/-- Non-decreasing order plus no duplicates gives the strict order. -/
theorem sorted_lt_of_sorted_le_nodup {l : List Addr} (hs : List.Sorted addrLe l)
    (hnd : l.Nodup) : List.Sorted addrLt l :=
  (List.Pairwise.and hs hnd).imp (fun h => addrLt_of_addrLe_of_ne h.1 h.2)

/-! ### Concrete fixtures for witnesses and counterexamples -/

/-- The 20-byte address whose last byte is `n` (`byteAddr 1` is address `0x01`). -/
def byteAddr (n : Nat) : Addr := List.replicate 19 0 ++ [n]

theorem byteAddr_inj {m n : Nat} : byteAddr m = byteAddr n ↔ m = n := by
  unfold byteAddr
  constructor
  · intro h
    have h2 := List.append_cancel_left h
    simpa using h2
  · rintro rfl
    rfl

/-- A fixed rules value (contents are irrelevant to the wrapper). -/
def rules0 : Rules :=
  { ChainID := 9000, IsHomestead := true, IsEIP150 := true, IsEIP155 := true,
    IsEIP158 := true, IsByzantium := true, IsConstantinople := true,
    IsPetersburg := true, IsIstanbul := true, IsBerlin := false,
    IsLondon := false, IsMerge := false }

def cfg0 : ChainConfig := { Rules := fun _ _ => rules0 }

def bc0 : BlockContext :=
  { Coinbase := byteAddr 0, GasLimit := 10000000, BlockNumber := 100,
    Time := 1700000000, Difficulty := 0, BaseFee := 7, Random := none }

def tc0 : TxContext := { Origin := byteAddr 0, GasPrice := 1 }

def config0 : Config :=
  { Debug := false, TracerTag := 0, NoBaseFee := false,
    EnablePreimageRecording := false, ExtraEips := [] }

def sd0 : StateDB := { handle := 0 }

def sctx0 : SdkContext := { handle := 0 }

/-- Built-in contract at `0x01` (e.g. `ecrecover`). -/
def builtinC1 : PrecompiledContract := { Address := byteAddr 1, runTag := 1 }

/-- Built-in contract at `0x09` (e.g. `blake2F`). -/
def builtinC9 : PrecompiledContract := { Address := byteAddr 9, runTag := 9 }

/-- Extension contract self-reporting address `0x05`. -/
def extC5 : PrecompiledContract := { Address := byteAddr 5, runTag := 105 }

/-- Extension contract that overrides built-in address `0x01`. -/
def extOver1 : PrecompiledContract := { Address := byteAddr 1, runTag := 101 }

/-- Extension contract self-reporting `0x05`, registered under key `0x01`. -/
def extKey1Addr5 : PrecompiledContract := { Address := byteAddr 5, runTag := 205 }

/-- External base VM whose built-in set for every rules value is `{0x01}`. -/
def base1 : BaseVM :=
  { DefaultPrecompiles := fun _ => [(byteAddr 1, builtinC1)],
    DefaultActivePrecompiles := fun _ => [byteAddr 1] }

/-- External base VM whose built-in set for every rules value is `{0x01, 0x09}`. -/
def base19 : BaseVM :=
  { DefaultPrecompiles := fun _ => [(byteAddr 1, builtinC1), (byteAddr 9, builtinC9)],
    DefaultActivePrecompiles := fun _ => [byteAddr 1, byteAddr 9] }

/-! ### Claims -/

/-- C1 (counterexample): when the extension mapping overrides the built-in
address `0x01` with a contract self-reporting `0x01`, the merge loop appends
`v.Address()` a second time and the sort keeps both copies, so the Active
Address List is `[0x01, 0x01]`: the address appears twice, the list has a
duplicate, and it is not strictly sorted — refuting the claim as stated. -/
theorem C1_counterexample :
    (NewEVM base1 sctx0 bc0 tc0 sd0 cfg0 config0
        (fun _ _ => [(byteAddr 1, extOver1)])).activePrecompiles =
      [byteAddr 1, byteAddr 1] ∧
    ¬ (NewEVM base1 sctx0 bc0 tc0 sd0 cfg0 config0
        (fun _ _ => [(byteAddr 1, extOver1)])).activePrecompiles.Nodup ∧
    (NewEVM base1 sctx0 bc0 tc0 sd0 cfg0 config0
        (fun _ _ => [(byteAddr 1, extOver1)])).activePrecompiles.count (byteAddr 1)
      = 2 :=
  ⟨by decide, by decide, by decide⟩

/-- C1 (amended): for every chain rules value and extension mapping, the
Active Address List built by `NewEVM` is sorted in non-decreasing unsigned
byte-wise order and is a permutation of the built-in active list with the
extension addresses appended (so each address occurs with that combined
multiplicity); it is strictly sorted with no duplicates whenever those
combined addresses are pairwise distinct — in particular an extension that
overrides a built-in address (self-reporting that address) makes the address
appear twice, not once. -/
theorem C1_amended_active_list_order (base : BaseVM) (ctx : SdkContext)
    (blockCtx : BlockContext) (txCtx : TxContext) (stateDB : StateDB)
    (chainConfig : ChainConfig) (config : Config)
    (g : SdkContext → VmEVM → PrecompiledContracts) :
    List.Sorted addrLe
      (NewEVM base ctx blockCtx txCtx stateDB chainConfig config g).activePrecompiles ∧
    (NewEVM base ctx blockCtx txCtx stateDB chainConfig config
        g).activePrecompiles.Perm
      (base.DefaultActivePrecompiles
          (chainConfig.Rules blockCtx.BlockNumber blockCtx.Random.isSome) ++
        (g ctx (vmNewEVM blockCtx txCtx stateDB chainConfig config)).map
          (fun kv => kv.2.Address)) ∧
    ((base.DefaultActivePrecompiles
          (chainConfig.Rules blockCtx.BlockNumber blockCtx.Random.isSome) ++
        (g ctx (vmNewEVM blockCtx txCtx stateDB chainConfig config)).map
          (fun kv => kv.2.Address)).Nodup →
      List.Sorted addrLt
        (NewEVM base ctx blockCtx txCtx stateDB chainConfig config
          g).activePrecompiles ∧
      (NewEVM base ctx blockCtx txCtx stateDB chainConfig config
        g).activePrecompiles.Nodup) := by
  rw [NewEVM_activePrecompiles]
  refine ⟨List.sorted_insertionSort addrLe _,
    List.perm_insertionSort addrLe _,
    fun hnd => ?_⟩
  have hnd' : (List.insertionSort addrLe
      (base.DefaultActivePrecompiles
          (chainConfig.Rules blockCtx.BlockNumber blockCtx.Random.isSome) ++
        (g ctx (vmNewEVM blockCtx txCtx stateDB chainConfig config)).map
          (fun kv => kv.2.Address))).Nodup :=
    ((List.perm_insertionSort addrLe _).nodup_iff).mpr hnd
  exact ⟨sorted_lt_of_sorted_le_nodup (List.sorted_insertionSort addrLe _) hnd', hnd'⟩

/-- C1 (witness): in the `{0x01, 0x09}` built-in / `{0x05}` extension
scenario the combined addresses are distinct, so the amended theorem yields
a strictly sorted, duplicate-free list. -/
theorem C1_witness :
    List.Sorted addrLt
      (NewEVM base19 sctx0 bc0 tc0 sd0 cfg0 config0
        (fun _ _ => [(byteAddr 5, extC5)])).activePrecompiles ∧
    (NewEVM base19 sctx0 bc0 tc0 sd0 cfg0 config0
      (fun _ _ => [(byteAddr 5, extC5)])).activePrecompiles.Nodup :=
  (C1_amended_active_list_order base19 sctx0 bc0 tc0 sd0 cfg0 config0
    (fun _ _ => [(byteAddr 5, extC5)])).2.2 (by decide)

/-- C2: when an extension binding `(k, v)` collides with a built-in
precompile address, the wrapper's lookup at `k` returns the extension
contract `v` — the merge writes `precompiles[k] = v` over the built-in entry
(last-writer-wins). -/
theorem C2_extension_overrides_builtin (base : BaseVM) (ctx : SdkContext)
    (blockCtx : BlockContext) (txCtx : TxContext) (stateDB : StateDB)
    (chainConfig : ChainConfig) (config : Config)
    (g : SdkContext → VmEVM → PrecompiledContracts) (k : Addr)
    (v : PrecompiledContract)
    (hnd : ((g ctx (vmNewEVM blockCtx txCtx stateDB chainConfig config)).map
      Prod.fst).Nodup)
    (hmem : (k, v) ∈ g ctx (vmNewEVM blockCtx txCtx stateDB chainConfig config))
    (hbuiltin : k ∈ (base.DefaultPrecompiles
      (chainConfig.Rules blockCtx.BlockNumber blockCtx.Random.isSome)).map
        Prod.fst) :
    (NewEVM base ctx blockCtx txCtx stateDB chainConfig config g).Precompile k =
      some v := by
  rw [EVM.Precompile, NewEVM_precompiles]
  exact insertAll_lookup_of_mem _ hnd hmem

/-- C2 (witness): extension `{0x01: extOver1}` over built-in `{0x01}`. -/
theorem C2_witness :
    (NewEVM base1 sctx0 bc0 tc0 sd0 cfg0 config0
        (fun _ _ => [(byteAddr 1, extOver1)])).Precompile (byteAddr 1) =
      some extOver1 :=
  C2_extension_overrides_builtin base1 sctx0 bc0 tc0 sd0 cfg0 config0
    (fun _ _ => [(byteAddr 1, extOver1)]) (byteAddr 1) extOver1
    (by decide) (by decide) (by decide)

/-- C4: `ActivePrecompiles` ignores its `rules` argument and returns the
Active Address List cached in the wrapper at construction. -/
theorem C4_rules_argument_ignored (base : BaseVM) (ctx : SdkContext)
    (blockCtx : BlockContext) (txCtx : TxContext) (stateDB : StateDB)
    (chainConfig : ChainConfig) (config : Config)
    (g : SdkContext → VmEVM → PrecompiledContracts) (r1 r2 : Rules) :
    (NewEVM base ctx blockCtx txCtx stateDB chainConfig
        config g).ActivePrecompiles r1 =
      (NewEVM base ctx blockCtx txCtx stateDB chainConfig
        config g).ActivePrecompiles r2 ∧
    (NewEVM base ctx blockCtx txCtx stateDB chainConfig
        config g).ActivePrecompiles r1 =
      (NewEVM base ctx blockCtx txCtx stateDB chainConfig
        config g).activePrecompiles :=
  ⟨rfl, rfl⟩

/-- C5: any address bound neither by the built-in table nor by the extension
mapping is a lookup miss: `Precompile` totally returns `none` (Go:
`found = false`, no error channel exists in the method's signature). -/
theorem C5_lookup_miss_not_error (base : BaseVM) (ctx : SdkContext)
    (blockCtx : BlockContext) (txCtx : TxContext) (stateDB : StateDB)
    (chainConfig : ChainConfig) (config : Config)
    (g : SdkContext → VmEVM → PrecompiledContracts) (a : Addr)
    (hb : a ∉ (base.DefaultPrecompiles
      (chainConfig.Rules blockCtx.BlockNumber blockCtx.Random.isSome)).map
        Prod.fst)
    (he : a ∉ (g ctx (vmNewEVM blockCtx txCtx stateDB chainConfig config)).map
      Prod.fst) :
    (NewEVM base ctx blockCtx txCtx stateDB chainConfig config g).Precompile a =
      none := by
  rw [EVM.Precompile, NewEVM_precompiles,
    insertAll_lookup_of_not_mem _ he, mapLookup_eq_none_iff]
  exact hb

/-- C5 (witness): the ordinary address `0x07` misses in a wrapper built from
built-in `{0x01}` and extension `{0x05}`. -/
theorem C5_witness :
    (NewEVM base1 sctx0 bc0 tc0 sd0 cfg0 config0
        (fun _ _ => [(byteAddr 5, extC5)])).Precompile (byteAddr 7) = none :=
  C5_lookup_miss_not_error base1 sctx0 bc0 tc0 sd0 cfg0 config0
    (fun _ _ => [(byteAddr 5, extC5)]) (byteAddr 7) (by decide) (by decide)

/-- Execution-context state for the post-construction claims: the wrapper
value together with the caller's extension map object, kept as separate
state components because the merge loop copies each binding
(`precompiles[k] = v`) into the table obtained from the defaults instead of
retaining the caller's map, and `append` builds the wrapper's own slice. -/
structure ExecState where
  evm : EVM
  callerExt : PrecompiledContracts

/-- Construction: build the wrapper and record the caller's extension map as
the provider returned it at construction time. -/
def buildExec (base : BaseVM) (ctx : SdkContext) (blockCtx : BlockContext)
    (txCtx : TxContext) (stateDB : StateDB) (chainConfig : ChainConfig)
    (config : Config)
    (g : SdkContext → VmEVM → PrecompiledContracts) : ExecState :=
  { evm := NewEVM base ctx blockCtx txCtx stateDB chainConfig config g,
    callerExt := g ctx (vmNewEVM blockCtx txCtx stateDB chainConfig config) }

/-- Post-construction mutation of the caller's extension map object. -/
def ExecState.mutateExt (s : ExecState) (E : PrecompiledContracts) : ExecState :=
  { s with callerExt := E }

/-- The method `Precompile` as a state transformer: reads the table, writes
nothing. -/
def ExecState.precompileOp (s : ExecState) (a : Addr) :
    Option PrecompiledContract × ExecState :=
  (s.evm.Precompile a, s)

/-- The method `ActivePrecompiles` as a state transformer. -/
def ExecState.activeOp (s : ExecState) (r : Rules) : List Addr × ExecState :=
  (s.evm.ActivePrecompiles r, s)

/-- The method `Context` as a state transformer. -/
def ExecState.contextOp (s : ExecState) : BlockContext × ExecState :=
  (s.evm.Context, s)

/-- The method `TxContext` as a state transformer. -/
def ExecState.txContextOp (s : ExecState) : TxContext × ExecState :=
  (s.evm.TxContext, s)

/-- The method `Config` as a state transformer. -/
def ExecState.configOp (s : ExecState) : Config × ExecState :=
  (s.evm.Config, s)

/-- C7: after construction no wrapper operation mutates the state — each
method returns the execution state unchanged — and the wrapper's table and
list are a snapshot: replacing the caller's original extension map by any
other value after construction leaves every `Precompile` and
`ActivePrecompiles` result (and the context accessors) unchanged. -/
theorem C7_immutable_after_construction (base : BaseVM) (ctx : SdkContext)
    (blockCtx : BlockContext) (txCtx : TxContext) (stateDB : StateDB)
    (chainConfig : ChainConfig) (config : Config)
    (g : SdkContext → VmEVM → PrecompiledContracts)
    (E2 : PrecompiledContracts) (a : Addr) (r : Rules) :
    ((buildExec base ctx blockCtx txCtx stateDB chainConfig config
        g).precompileOp a).2 =
      buildExec base ctx blockCtx txCtx stateDB chainConfig config g ∧
    ((buildExec base ctx blockCtx txCtx stateDB chainConfig config
        g).activeOp r).2 =
      buildExec base ctx blockCtx txCtx stateDB chainConfig config g ∧
    (buildExec base ctx blockCtx txCtx stateDB chainConfig config
        g).contextOp.2 =
      buildExec base ctx blockCtx txCtx stateDB chainConfig config g ∧
    (buildExec base ctx blockCtx txCtx stateDB chainConfig config
        g).txContextOp.2 =
      buildExec base ctx blockCtx txCtx stateDB chainConfig config g ∧
    (buildExec base ctx blockCtx txCtx stateDB chainConfig config
        g).configOp.2 =
      buildExec base ctx blockCtx txCtx stateDB chainConfig config g ∧
    (((buildExec base ctx blockCtx txCtx stateDB chainConfig config
        g).mutateExt E2).precompileOp a).1 =
      ((buildExec base ctx blockCtx txCtx stateDB chainConfig config
        g).precompileOp a).1 ∧
    (((buildExec base ctx blockCtx txCtx stateDB chainConfig config
        g).mutateExt E2).activeOp r).1 =
      ((buildExec base ctx blockCtx txCtx stateDB chainConfig config
        g).activeOp r).1 ∧
    (((buildExec base ctx blockCtx txCtx stateDB chainConfig config
        g).mutateExt E2).contextOp).1 =
      ((buildExec base ctx blockCtx txCtx stateDB chainConfig config
        g).contextOp).1 :=
  ⟨rfl, rfl, rfl, rfl, rfl, rfl, rfl, rfl⟩

/-- C10: merging extensions never removes a built-in address: every address
in the base VM's built-in active list for the derived rules is in the
wrapper's final Active Address List. -/
theorem C10_builtin_addresses_preserved (base : BaseVM) (ctx : SdkContext)
    (blockCtx : BlockContext) (txCtx : TxContext) (stateDB : StateDB)
    (chainConfig : ChainConfig) (config : Config)
    (g : SdkContext → VmEVM → PrecompiledContracts) (a : Addr)
    (ha : a ∈ base.DefaultActivePrecompiles
      (chainConfig.Rules blockCtx.BlockNumber blockCtx.Random.isSome)) :
    a ∈ (NewEVM base ctx blockCtx txCtx stateDB chainConfig
      config g).activePrecompiles := by
  rw [NewEVM_activePrecompiles]
  exact ((List.perm_insertionSort addrLe _).mem_iff).mpr
    (List.mem_append_left _ ha)

/-- C3: construction is deterministic and independent of map-iteration
order: for two iteration orders (permutations) of the same well-formed
extension mapping the merged table has identical contents (pointwise equal
lookups) and the Active Address List is literally the same list.  Since
`NewEVM` is a pure function of its arguments, building twice with identical
inputs is the reflexive special case. -/
theorem C3_construction_deterministic (base : BaseVM) (ctx : SdkContext)
    (blockCtx : BlockContext) (txCtx : TxContext) (stateDB : StateDB)
    (chainConfig : ChainConfig) (config : Config)
    (E1 E2 : PrecompiledContracts) (hperm : E1.Perm E2)
    (hnd : (E1.map Prod.fst).Nodup) :
    (∀ a : Addr,
      (NewEVM base ctx blockCtx txCtx stateDB chainConfig config
          (fun _ _ => E1)).Precompile a =
        (NewEVM base ctx blockCtx txCtx stateDB chainConfig config
          (fun _ _ => E2)).Precompile a) ∧
    (NewEVM base ctx blockCtx txCtx stateDB chainConfig config
        (fun _ _ => E1)).activePrecompiles =
      (NewEVM base ctx blockCtx txCtx stateDB chainConfig config
        (fun _ _ => E2)).activePrecompiles := by
  constructor
  · intro a
    rw [EVM.Precompile, EVM.Precompile, NewEVM_precompiles, NewEVM_precompiles,
      insertAll_lookup_char _ hnd,
      insertAll_lookup_char _ (((hperm.map Prod.fst).nodup_iff).mp hnd),
      mapLookup_perm hperm hnd]
  · rw [NewEVM_activePrecompiles, NewEVM_activePrecompiles]
    exact List.eq_of_perm_of_sorted
      ((List.perm_insertionSort addrLe _).trans
        (((hperm.map (fun kv => kv.2.Address)).append_left _).trans
          (List.perm_insertionSort addrLe _).symm))
      (List.sorted_insertionSort addrLe _)
      (List.sorted_insertionSort addrLe _)

/-- C3 (witness): the two iteration orders of `{0x05: extC5, 0x01: extOver1}`
agree on the lookup at `0x01` and produce the same active list. -/
theorem C3_witness :
    (NewEVM base1 sctx0 bc0 tc0 sd0 cfg0 config0
        (fun _ _ => [(byteAddr 5, extC5), (byteAddr 1, extOver1)])).Precompile
        (byteAddr 1) =
      (NewEVM base1 sctx0 bc0 tc0 sd0 cfg0 config0
        (fun _ _ => [(byteAddr 1, extOver1), (byteAddr 5, extC5)])).Precompile
        (byteAddr 1) ∧
    (NewEVM base1 sctx0 bc0 tc0 sd0 cfg0 config0
        (fun _ _ => [(byteAddr 5, extC5), (byteAddr 1, extOver1)])).activePrecompiles =
      (NewEVM base1 sctx0 bc0 tc0 sd0 cfg0 config0
        (fun _ _ => [(byteAddr 1, extOver1), (byteAddr 5, extC5)])).activePrecompiles := by
  have h := C3_construction_deterministic base1 sctx0 bc0 tc0 sd0 cfg0 config0
    [(byteAddr 5, extC5), (byteAddr 1, extOver1)]
    [(byteAddr 1, extOver1), (byteAddr 5, extC5)]
    (List.Perm.swap (byteAddr 1, extOver1) (byteAddr 5, extC5) [])
    (by decide)
  exact ⟨h.1 (byteAddr 1), h.2⟩

/-- C6: in the scenario where the rules activate exactly the built-ins
`0x01` and `0x09` and the extension mapping is `{0x05: c5}` with `c5`
self-reporting `0x05`, the Active Address List is `[0x01, 0x05, 0x09]` —
the sort covers the whole combined list — and the table resolves all three
addresses to their respective contracts. -/
theorem C6_two_builtins_one_extension (base : BaseVM) (ctx : SdkContext)
    (blockCtx : BlockContext) (txCtx : TxContext) (stateDB : StateDB)
    (chainConfig : ChainConfig) (config : Config)
    (c1 c9 c5 : PrecompiledContract)
    (hactive : base.DefaultActivePrecompiles
        (chainConfig.Rules blockCtx.BlockNumber blockCtx.Random.isSome) =
      [byteAddr 1, byteAddr 9])
    (htable : base.DefaultPrecompiles
        (chainConfig.Rules blockCtx.BlockNumber blockCtx.Random.isSome) =
      [(byteAddr 1, c1), (byteAddr 9, c9)])
    (haddr : c5.Address = byteAddr 5) :
    (NewEVM base ctx blockCtx txCtx stateDB chainConfig config
        (fun _ _ => [(byteAddr 5, c5)])).activePrecompiles =
      [byteAddr 1, byteAddr 5, byteAddr 9] ∧
    (NewEVM base ctx blockCtx txCtx stateDB chainConfig config
        (fun _ _ => [(byteAddr 5, c5)])).Precompile (byteAddr 1) = some c1 ∧
    (NewEVM base ctx blockCtx txCtx stateDB chainConfig config
        (fun _ _ => [(byteAddr 5, c5)])).Precompile (byteAddr 5) = some c5 ∧
    (NewEVM base ctx blockCtx txCtx stateDB chainConfig config
        (fun _ _ => [(byteAddr 5, c5)])).Precompile (byteAddr 9) = some c9 := by
  have hnotin1 : byteAddr 1 ∉ List.map Prod.fst [(byteAddr 5, c5)] := by
    simp [byteAddr_inj]
  have hnotin9 : byteAddr 9 ∉ List.map Prod.fst [(byteAddr 5, c5)] := by
    simp [byteAddr_inj]
  have hnd5 : (List.map Prod.fst [(byteAddr 5, c5)]).Nodup := by simp
  refine ⟨?_, ?_, ?_, ?_⟩
  · rw [NewEVM_activePrecompiles, hactive]
    simp only [List.map_cons, List.map_nil, haddr]
    decide
  · rw [EVM.Precompile, NewEVM_precompiles,
      insertAll_lookup_of_not_mem _ hnotin1, htable,
      mapLookup, if_pos rfl]
  · rw [EVM.Precompile, NewEVM_precompiles]
    exact insertAll_lookup_of_mem _ hnd5 (List.mem_singleton.mpr rfl)
  · rw [EVM.Precompile, NewEVM_precompiles,
      insertAll_lookup_of_not_mem _ hnotin9, htable,
      mapLookup, if_neg (by decide), mapLookup, if_pos rfl]

/-- C6 (witness): the scenario instantiated with the concrete base VM
`base19` and extension contract `extC5`. -/
theorem C6_witness :
    (NewEVM base19 sctx0 bc0 tc0 sd0 cfg0 config0
        (fun _ _ => [(byteAddr 5, extC5)])).activePrecompiles =
      [byteAddr 1, byteAddr 5, byteAddr 9] ∧
    (NewEVM base19 sctx0 bc0 tc0 sd0 cfg0 config0
        (fun _ _ => [(byteAddr 5, extC5)])).Precompile (byteAddr 1) =
      some builtinC1 ∧
    (NewEVM base19 sctx0 bc0 tc0 sd0 cfg0 config0
        (fun _ _ => [(byteAddr 5, extC5)])).Precompile (byteAddr 5) =
      some extC5 ∧
    (NewEVM base19 sctx0 bc0 tc0 sd0 cfg0 config0
        (fun _ _ => [(byteAddr 5, extC5)])).Precompile (byteAddr 9) =
      some builtinC9 :=
  C6_two_builtins_one_extension base19 sctx0 bc0 tc0 sd0 cfg0 config0
    builtinC1 builtinC9 extC5 rfl rfl rfl

/-- C8: `NewEVM` derives the Chain Rules as
`chainConfig.Rules(blockCtx.BlockNumber, blockCtx.Random != nil)`: for a
fixed chain configuration, any two block contexts agreeing on height and on
randomness-presence yield the same rules and hence the same built-in set,
merged table and active list. -/
theorem C8_rules_from_height_and_randomness (base : BaseVM) (ctx : SdkContext)
    (txCtx : TxContext) (stateDB : StateDB) (chainConfig : ChainConfig)
    (config : Config) (E : PrecompiledContracts) (b1 b2 : BlockContext)
    (hn : b1.BlockNumber = b2.BlockNumber)
    (hr : b1.Random.isSome = b2.Random.isSome) :
    chainConfig.Rules b1.BlockNumber b1.Random.isSome =
      chainConfig.Rules b2.BlockNumber b2.Random.isSome ∧
    (NewEVM base ctx b1 txCtx stateDB chainConfig config
        (fun _ _ => E)).precompiles =
      (NewEVM base ctx b2 txCtx stateDB chainConfig config
        (fun _ _ => E)).precompiles ∧
    (NewEVM base ctx b1 txCtx stateDB chainConfig config
        (fun _ _ => E)).activePrecompiles =
      (NewEVM base ctx b2 txCtx stateDB chainConfig config
        (fun _ _ => E)).activePrecompiles := by
  have hrules : chainConfig.Rules b1.BlockNumber b1.Random.isSome =
      chainConfig.Rules b2.BlockNumber b2.Random.isSome := by
    rw [hn, hr]
  refine ⟨hrules, ?_, ?_⟩
  · rw [NewEVM_precompiles, NewEVM_precompiles, hrules]
  · rw [NewEVM_activePrecompiles, NewEVM_activePrecompiles, hrules]

/-- C8 (witness): two block contexts equal in height and randomness-presence
but different in gas limit produce identical tables and lists. -/
theorem C8_witness :
    (NewEVM base19 sctx0 bc0 tc0 sd0 cfg0 config0
        (fun _ _ => [(byteAddr 5, extC5)])).precompiles =
      (NewEVM base19 sctx0 { bc0 with GasLimit := 5 } tc0 sd0 cfg0 config0
        (fun _ _ => [(byteAddr 5, extC5)])).precompiles ∧
    (NewEVM base19 sctx0 bc0 tc0 sd0 cfg0 config0
        (fun _ _ => [(byteAddr 5, extC5)])).activePrecompiles =
      (NewEVM base19 sctx0 { bc0 with GasLimit := 5 } tc0 sd0 cfg0 config0
        (fun _ _ => [(byteAddr 5, extC5)])).activePrecompiles :=
  ⟨(C8_rules_from_height_and_randomness base19 sctx0 tc0 sd0 cfg0 config0
      [(byteAddr 5, extC5)] bc0 { bc0 with GasLimit := 5 } rfl rfl).2.1,
   (C8_rules_from_height_and_randomness base19 sctx0 tc0 sd0 cfg0 config0
      [(byteAddr 5, extC5)] bc0 { bc0 with GasLimit := 5 } rfl rfl).2.2⟩

/-- C9 (counterexample): for the extension entry `(0x01, extKey1Addr5)` the
key `0x01` differs from the contract's self-reported address `0x05`, and the
lookup at the key indeed returns the contract — but `0x01` is a built-in
active address, so the Active Address List does contain `k`, refuting the
claim's "and not k". -/
theorem C9_counterexample :
    (NewEVM base1 sctx0 bc0 tc0 sd0 cfg0 config0
        (fun _ _ => [(byteAddr 1, extKey1Addr5)])).Precompile (byteAddr 1) =
      some extKey1Addr5 ∧
    byteAddr 1 ≠ extKey1Addr5.Address ∧
    byteAddr 1 ∈ (NewEVM base1 sctx0 bc0 tc0 sd0 cfg0 config0
      (fun _ _ => [(byteAddr 1, extKey1Addr5)])).activePrecompiles :=
  ⟨by decide, by decide, by decide⟩

/-- C9 (amended): for an extension entry `(k, v)`, the table is keyed by `k`
(`Precompile k` returns `v`) while the Active Address List receives the
contract's self-reported `v.Address()`; the list does not contain `k`
provided `k` is neither a built-in active address nor the self-reported
address of any extension contract. -/
theorem C9_key_versus_reported_address (base : BaseVM) (ctx : SdkContext)
    (blockCtx : BlockContext) (txCtx : TxContext) (stateDB : StateDB)
    (chainConfig : ChainConfig) (config : Config)
    (g : SdkContext → VmEVM → PrecompiledContracts) (k : Addr)
    (v : PrecompiledContract)
    (hnd : ((g ctx (vmNewEVM blockCtx txCtx stateDB chainConfig config)).map
      Prod.fst).Nodup)
    (hm : (k, v) ∈ g ctx (vmNewEVM blockCtx txCtx stateDB chainConfig config))
    (hne : k ≠ v.Address) :
    (NewEVM base ctx blockCtx txCtx stateDB chainConfig config g).Precompile k =
      some v ∧
    v.Address ∈ (NewEVM base ctx blockCtx txCtx stateDB chainConfig
      config g).activePrecompiles ∧
    (k ∉ base.DefaultActivePrecompiles
        (chainConfig.Rules blockCtx.BlockNumber blockCtx.Random.isSome) →
      (∀ kv ∈ g ctx (vmNewEVM blockCtx txCtx stateDB chainConfig config),
        k ≠ kv.2.Address) →
      k ∉ (NewEVM base ctx blockCtx txCtx stateDB chainConfig
        config g).activePrecompiles) := by
  refine ⟨?_, ?_, ?_⟩
  · rw [EVM.Precompile, NewEVM_precompiles]
    exact insertAll_lookup_of_mem _ hnd hm
  · rw [NewEVM_activePrecompiles]
    exact ((List.perm_insertionSort addrLe _).mem_iff).mpr
      (List.mem_append_right _ (List.mem_map.mpr ⟨(k, v), hm, rfl⟩))
  · intro hb hext hmem
    rw [NewEVM_activePrecompiles] at hmem
    rcases List.mem_append.mp
        (((List.perm_insertionSort addrLe _).mem_iff).mp hmem) with h | h
    · exact hb h
    · rcases List.mem_map.mp h with ⟨kv, hkv, heq⟩
      exact hext kv hkv heq.symm

/-- C9 (witness): entry `(0x03, extC5)` with `0x03` not built-in and not any
reported address: lookup by key, list holds `0x05` and omits `0x03`. -/
theorem C9_witness :
    (NewEVM base1 sctx0 bc0 tc0 sd0 cfg0 config0
        (fun _ _ => [(byteAddr 3, extC5)])).Precompile (byteAddr 3) =
      some extC5 ∧
    extC5.Address ∈ (NewEVM base1 sctx0 bc0 tc0 sd0 cfg0 config0
      (fun _ _ => [(byteAddr 3, extC5)])).activePrecompiles ∧
    byteAddr 3 ∉ (NewEVM base1 sctx0 bc0 tc0 sd0 cfg0 config0
      (fun _ _ => [(byteAddr 3, extC5)])).activePrecompiles := by
  have h := C9_key_versus_reported_address base1 sctx0 bc0 tc0 sd0 cfg0 config0
    (fun _ _ => [(byteAddr 3, extC5)]) (byteAddr 3) extC5
    (by decide) (by decide) (by decide)
  exact ⟨h.1, h.2.1, h.2.2 (by decide) (by decide)⟩

/-- C10 (witness): built-in `0x09` survives the merge with extension `{0x05}`. -/
theorem C10_witness :
    byteAddr 9 ∈ (NewEVM base19 sctx0 bc0 tc0 sd0 cfg0 config0
      (fun _ _ => [(byteAddr 5, extC5)])).activePrecompiles :=
  C10_builtin_addresses_preserved base19 sctx0 bc0 tc0 sd0 cfg0 config0
    (fun _ _ => [(byteAddr 5, extC5)]) (byteAddr 9) (by decide)

end Geth
